import Mathlib

set_option maxHeartbeats 1000000

namespace DP

/-! Shallow embedding of the search-coordination core in `src/main.py` of the
decomp-permuter repository: result aggregation (`post_score`), candidate
persistence (`write_candidate`), the seed rotation generator (`cycle_seeds`),
the worker loop (`multiprocess_worker`), the shutdown drain loop of
`run_inner`, and interrupt classification in `run`. -/

/-- Scores are Python ints (lower is better, 0 is a perfect match). -/
abbrev Score := Int

/-- Content hashes of compiled outputs; opaque fingerprints. -/
abbrev Hash := Nat

/-- The subset of `Options` (main.py:49-61) read by the embedded code. -/
structure Options where
  show_timings : Bool
  print_diffs : Bool
  abort_exceptions : Bool
  stop_on_zero : Bool
  force_seed : Option String
deriving DecidableEq

/-- `EvalContext` (main.py:81-86): run-wide mutable aggregator state.
`overall_profiler` abstracts the external `Profiler` as the list of
(stat, time) pairs it has absorbed via `add_stat`. -/
structure EvalContext where
  options : Options
  iteration : Nat
  errors : Nat
  overall_profiler : List (String × Int)
deriving DecidableEq

/-- The fields of the external `Permuter` object that `post_score` reads or
writes: display name, the immutable base score, the mutable best score, the
dedup hash set `hashes` (modelled as the list of inserted hashes), the
scorer's `PENALTY_INF` constant and the `diff` rendering (both external). -/
structure Permuter where
  unique_name : String
  base_score : Score
  best_score : Score
  hashes : List Hash
  penalty_inf : Score
  diff_fn : String → String

/-- The fields of the external `CandidateResult` that `post_score` reads. -/
structure CandidateResult where
  score : Option Score
  hash : Option Hash
  source : Option String
  profiler : List (String × Int)
deriving DecidableEq

/-- `EvalResult = Union[CandidateResult, EvalError]`; an `EvalError` carries
the exception text and an optional `(seed[0], seed[1])` pair for
reproduction. -/
inductive EvalResult where
  | error (exc_str : String) (seed : Option (Int × Int))
  | cand (c : CandidateResult)
deriving DecidableEq

/-- Observable side effects of the aggregator. -/
inductive Effect where
  | printed (s : String)
  | awaited_input
  | wrote_candidate (score : Score)
deriving DecidableEq

/-- How one `post_score` call ends: a normal return carrying the value of
`score_value == 0`, a `sys.exit`, or an uncaught exception (failing assert). -/
inductive PostOutcome where
  | ret (found_zero : Bool)
  | exited (code : Nat)
  | crashed
deriving DecidableEq

/-- Result of one `post_score` call: updated context and permuter, the
effects emitted in order, and the outcome. -/
structure PostScoreResult where
  context : EvalContext
  permuter : Permuter
  effects : List Effect
  outcome : PostOutcome

/-- The reproduction string built in `post_score` (main.py:118-120):
`str(seed[1])`, prefixed by the first component and a comma when
`seed[0] != 0`. -/
def seed_repro_str (seed : Int × Int) : String :=
  if seed.1 ≠ 0 then toString seed.1 ++ "," ++ toString seed.2
  else toString seed.2

/-- `write_candidate` (main.py:89-110): allocates a fresh output directory
named by the score and a collision counter and writes the source, base,
score and diff files; the whole file-system transaction is modelled as the
single `wrote_candidate` effect, emitted at invocation. The function asserts
that the result source is present; the Bool is `false` when that assert
fails (uncaught AssertionError). -/
def write_candidate (score : Score) (source : Option String) : List Effect × Bool :=
  ([Effect.wrote_candidate score], source.isSome)

/-- Stand-in for the external `Profiler.get_str_stats` rendering. -/
def get_str_stats (stats : List (String × Int)) : String :=
  String.intercalate ", " (stats.map (fun st => st.1 ++ ": " ++ toString st.2))

/-- The line-clearing control string from main.py:158: a carriage return,
`len(status_line) + 10` spaces, and another carriage return. -/
def clear_str (status_line : String) : String :=
  "\r" ++ String.mk (List.replicate (status_line.length + 10) ' ') ++ "\r"

/-- `post_score` (main.py:113-178), the Result Aggregator, translated
branch by branch from the source. -/
def post_score (context : EvalContext) (permuter : Permuter) (result : EvalResult) :
    PostScoreResult :=
  match result with
  | .error exc_str seed =>
    let effs : List Effect :=
      [.printed ("\n[" ++ permuter.unique_name ++ "] internal permuter failure."),
       .printed exc_str] ++
      (match seed with
       | none => []
       | some sd =>
         [.printed ("To reproduce the failure, rerun with: --seed " ++ seed_repro_str sd)])
    if context.options.abort_exceptions then ⟨context, permuter, effs, .exited 1⟩
    else ⟨context, permuter, effs, .ret false⟩
  | .cand c =>
    if context.options.print_diffs ∧ c.source = none then
      -- assert result.source is not None (main.py:132) fails
      ⟨context, permuter, [], .crashed⟩
    else
      let pd_effs : List Effect :=
        if context.options.print_diffs then
          [.printed "", .printed (permuter.diff_fn (c.source.getD "")), .awaited_input]
        else []
      let iteration := context.iteration + 1
      let errors := context.errors + (if c.score = none then 1 else 0)
      let overall :=
        if context.options.show_timings then context.overall_profiler ++ c.profiler
        else context.overall_profiler
      let context' : EvalContext := ⟨context.options, iteration, errors, overall⟩
      let disp_score : String :=
        if c.score = some permuter.penalty_inf then "inf"
        else
          match c.score with
          | none => "None"
          | some v => toString v
      let timings : String :=
        if context.options.show_timings then "  \t" ++ get_str_stats overall else ""
      let status_line : String :=
        "iteration " ++ toString iteration ++ ", " ++ toString errors ++
          " errors, score = " ++ disp_score ++ timings
      let final_print : Effect :=
        .printed (String.mk (List.replicate 10 '\x08') ++ String.mk (List.replicate 10 ' ')
          ++ "\r" ++ status_line)
      match c.score, c.hash with
      | some score_value, some score_hash =>
        if score_value ≤ permuter.base_score ∧ score_hash ∉ permuter.hashes then
          let hashes' :=
            if score_value ≠ 0 then score_hash :: permuter.hashes else permuter.hashes
          let class_msg : String :=
            if score_value < permuter.best_score then
              "\u001b[32;1m[" ++ permuter.unique_name ++ "] found new best score! ("
                ++ toString score_value ++ " vs " ++ toString permuter.base_score ++ ")\u001b[0m"
            else if score_value = permuter.best_score then
              "\u001b[32;1m[" ++ permuter.unique_name ++ "] tied best score! ("
                ++ toString score_value ++ " vs " ++ toString permuter.base_score ++ ")\u001b[0m"
            else if score_value < permuter.base_score then
              "\u001b[33m[" ++ permuter.unique_name ++ "] found a better score! ("
                ++ toString score_value ++ " vs " ++ toString permuter.base_score ++ ")\u001b[0m"
            else
              "\u001b[33m[" ++ permuter.unique_name
                ++ "] found different asm with same score ("
                ++ toString score_value ++ ")\u001b[0m"
          let best' := min permuter.best_score score_value
          let permuter' : Permuter :=
            ⟨permuter.unique_name, permuter.base_score, best', hashes',
             permuter.penalty_inf, permuter.diff_fn⟩
          let wc := write_candidate score_value c.source
          if wc.2 then
            ⟨context', permuter',
             pd_effs ++ [.printed (clear_str status_line), .printed class_msg]
               ++ wc.1 ++ [final_print],
             .ret (decide (score_value = 0))⟩
          else
            ⟨context', permuter',
             pd_effs ++ [.printed (clear_str status_line), .printed class_msg] ++ wc.1,
             .crashed⟩
        else
          ⟨context', permuter, pd_effs ++ [final_print], .ret (decide (c.score = some 0))⟩
      | _, _ =>
        ⟨context', permuter, pd_effs ++ [final_print], .ret (decide (c.score = some 0))⟩

/-- `run`'s KeyboardInterrupt handler (main.py:249-266). `now` and
`last_time` are the wall-clock readings (Python floats modelled as
rationals), `last_time` being the value recorded by the last `heartbeat()`
call; the pair returned is the exit status and the printed lines, with the
`traceback.print_exc()` output abstracted as one line. -/
def run_interrupt (now last_time : ℚ) : Nat × List String :=
  if now - last_time > 5 then (1, ["", "Aborting stuck process.", "traceback"])
  else (0, ["", "Exiting."])

/-- Model of the Python builtin `str.split(",")` on the character list of
the string: split at every comma; the empty string splits to one empty
part. -/
def split_commas : List Char → List (List Char)
  | [] => [[]]
  | c :: rest =>
    let groups := split_commas rest
    if c = ',' then [] :: groups
    else
      match groups with
      | [] => [[c]]
      | g :: gs => (c :: g) :: gs

/-- Model of the Python builtin `int()` on the digits of an unsigned
decimal numeral: `none` when empty or when any character is not a digit
(ValueError). -/
def parse_nat_chars (cs : List Char) : Option Nat :=
  match cs with
  | [] => none
  | _ =>
    cs.foldl
      (fun acc c =>
        match acc with
        | none => none
        | some n => if c.isDigit then some (n * 10 + (c.toNat - 48)) else none)
      (some 0)

/-- Model of the Python builtin `int()` on an optionally-negated decimal
numeral. -/
def parse_int_chars : List Char → Option Int
  | '-' :: rest => (parse_nat_chars rest).map (fun n => -(n : Int))
  | cs => (parse_nat_chars cs).map (fun n => (n : Int))

/-- The `--seed` parsing in `run_inner` (main.py:276-279): split the string
on commas, parse each part as an int, and return
`(force_seed, force_rng_seed)`: the rng seed is the LAST component and the
forced cycle seed is the FIRST component, 0 when only one component is
given. The result is `none` when `int()` raises ValueError. -/
def parse_force_seed (s : String) : Option (Int × Int) :=
  match (split_commas s.data).mapM parse_int_chars with
  | none => none
  | some parts => some (if parts.length = 1 then 0 else parts.headI, parts.getLastI)

/-- The integer components of the reproduction string `seed_repro_str`:
both seed components when the first is nonzero, else just the second. -/
def seed_repro_parts (seed : Int × Int) : List Int :=
  if seed.1 ≠ 0 then [seed.1, seed.2] else [seed.2]

/-- The arithmetic core of the `--seed` parsing (main.py:278-279), applied
to the already-split integer components. -/
def parse_seed_parts (parts : List Int) : Int × Int :=
  (if parts.length = 1 then 0 else parts.headI, parts.getLastI)

/-- Items on the task channel: `(permuter index, seed)` work pairs or the
`Finished` sentinel (the `Task` union of the permuter module). -/
inductive Task where
  | work (permuter_index : Nat) (seed : Int)
  | fin
deriving DecidableEq

/-- Items on the feedback channel: an evaluation result tagged with its
permuter index, or one of the two control sentinels. -/
inductive Feedback where
  | result (permuter_index : Nat) (res : EvalResult)
  | need_more_work
  | finished
deriving DecidableEq

/-- One observed outcome of an `input_queue.get` call: an item (possibly a
Python `None`, which the queue type admits even though this coordinator
never enqueues one), or the queue being empty at that instant. -/
inductive PollEvent where
  | item (t : Option Task)
  | empty
deriving DecidableEq

/-- How the worker loop ended: a clean break after forwarding `Finished`,
an uncaught `queue.Empty` exception, or still waiting for events. -/
inductive WorkerExit where
  | finished
  | crashed
  | starved
deriving DecidableEq

/-- The main loop of `multiprocess_worker` (main.py:224-241), one step per
loop iteration. `ev` stands for the external `permuter.try_eval_candidate`;
the event list is the sequence of task-queue observations made by the
worker's `get` calls (a blocking `get` waits through `empty` instants; a
non-blocking `get` on an `empty` instant raises `queue.Empty`, which the
source does not catch — only KeyboardInterrupt is). Returns the feedback
put on the output queue in order, how the loop ended, and the events left
unconsumed. -/
def worker_loop (ev : Nat → Int → EvalResult) :
    List PollEvent → Bool → List Feedback × WorkerExit × List PollEvent
  | [], _ => ([], .starved, [])
  | .empty :: rest, should_block =>
    if should_block then worker_loop ev rest true
    else ([], .crashed, rest)
  | .item none :: rest, _ =>
    -- the `if queue_item is None` branch: request a refill, then block
    let out := worker_loop ev rest true
    (.need_more_work :: out.1, out.2.1, out.2.2)
  | .item (some .fin) :: rest, _ => ([.finished], .finished, rest)
  | .item (some (.work permuter_index seed)) :: rest, _ =>
    let out := worker_loop ev rest false
    (.result permuter_index (ev permuter_index seed) :: out.1, out.2.1, out.2.2)

/-- The "Signal workers to stop" step (main.py:411-412): the for-loop puts
one `Finished` sentinel on the task queue per remaining active worker. -/
def signal_finished (active_workers : Nat) : List Task :=
  List.replicate active_workers Task.fin

/-- How the "Await final results" loop ended. -/
inductive DrainExit where
  | terminated
  | starved
  | exited (code : Nat)
  | crashed
deriving DecidableEq

/-- Result of the drain loop: final aggregator state, remaining
active-worker count, found-zero flag, how the loop ended, and the feedback
items never read. -/
structure DrainResult where
  context : EvalContext
  permuters : List Permuter
  active_workers : Nat
  found_zero : Bool
  outcome : DrainExit
  unread : List Feedback

/-- The "Await final results" loop of `run_inner` (main.py:415-424): read
feedback while workers remain active; a `Finished` acknowledgement removes
one active-worker credit, `NeedMoreWork` is ignored, and a result is
aggregated through `post_score` (via `process_result`, main.py:381-384)
unless `stop_on_zero` applies; an out-of-range permuter index or a
`post_score` crash or exit aborts the loop. -/
def drain_loop : List Feedback → EvalContext → List Permuter → Nat → Bool → DrainResult
  | fbs, ctx, ps, 0, fz => ⟨ctx, ps, 0, fz, .terminated, fbs⟩
  | [], ctx, ps, active, fz => ⟨ctx, ps, active, fz, .starved, []⟩
  | .finished :: rest, ctx, ps, active, fz =>
    drain_loop rest ctx ps (active - 1) fz
  | .need_more_work :: rest, ctx, ps, active, fz =>
    drain_loop rest ctx ps active fz
  | .result idx res :: rest, ctx, ps, active, fz =>
    if ctx.options.stop_on_zero ∧ fz then drain_loop rest ctx ps active fz
    else
      match ps[idx]? with
      | none => ⟨ctx, ps, active, fz, .crashed, rest⟩
      | some p =>
        let out := post_score ctx p res
        let ps' := ps.set idx out.permuter
        match out.outcome with
        | .ret b => drain_loop rest out.context ps' active (fz || b)
        | .exited k => ⟨out.context, ps', active, fz, .exited k, rest⟩
        | .crashed => ⟨out.context, ps', active, fz, .crashed, rest⟩

/-- Repeated application of `post_score` for one target, as the
single-threaded loop of `run_inner` does (main.py:341-345), stopping when a
call exits or crashes instead of returning. -/
def post_scores : List EvalResult → EvalContext → Permuter → EvalContext × Permuter
  | [], ctx, p => (ctx, p)
  | r :: rs, ctx, p =>
    let out := post_score ctx p r
    match out.outcome with
    | .ret _ => post_scores rs out.context out.permuter
    | _ => (out.context, out.permuter)

/-- A list of `Scored` feedback items carrying the given (score, hash)
pairs, each with a present source. -/
def scored_results (rs : List (Score × Hash)) : List EvalResult :=
  rs.map (fun sh => .cand ⟨some sh.1, some sh.2, some "", []⟩)

/-- One per-permuter iterator built by `cycle_seeds` (main.py:188-197):
either a finite enumeration of seeds or the infinite
`itertools.repeat(force_seed)`. -/
inductive SeedIter where
  | finite (seeds : List Int)
  | repeated (seed : Int)
deriving DecidableEq

/-- Python `next(it, None)`: the next seed and the advanced iterator, or
`none` on exhaustion. -/
def SeedIter.next : SeedIter → Option (Int × SeedIter)
  | .finite [] => none
  | .finite (s :: rest) => some (s, .finite rest)
  | .repeated s => some (s, .repeated s)

/-- Python truthiness of `force_seed : Optional[int]` as tested by
`if not force_seed` (main.py:191): `None` and `0` are falsy. -/
def py_truthy : Option Int → Bool
  | none => false
  | some v => v != 0

/-- The permuter data `cycle_seeds` consults: whether
`permuter.permutations.is_random()`, and the full enumeration produced by
the external `perm_eval.perm_gen_all_seeds` when no seed is forced
(restricted here to targets whose seed space is finite). -/
structure PermuterSeeds where
  is_random : Bool
  all_seeds : List Int
deriving DecidableEq

/-- The iterator list built by `cycle_seeds` (main.py:188-197): per target,
the full seed enumeration when no seed is forced, the repeated forced seed
for a randomized target, and the singleton forced seed otherwise; each
zipped with its permuter index. -/
def cycle_iterators (permuters : List PermuterSeeds) (force_seed : Option Int) :
    List (Nat × SeedIter) :=
  permuters.enum.map fun pe =>
    (pe.1,
      if !py_truthy force_seed then SeedIter.finite pe.2.all_seeds
      else if pe.2.is_random then SeedIter.repeated (force_seed.getD 0)
      else SeedIter.finite [force_seed.getD 0])

/-- The rotation loop of `cycle_seeds` (main.py:199-208) with explicit fuel
bounding the number of while-loop iterations. `i` is reduced modulo the
list length at the top of each iteration (Python `%` on a positive modulus
is `Int.emod`); an exhausted iterator is deleted and `i` is decremented,
otherwise its item is yielded and `i` is incremented. On the empty list the
lookup fails and the loop has exited. -/
def cycle_loop : Nat → Int → List (Nat × SeedIter) → List (Nat × Int)
  | 0, _, _ => []
  | fuel + 1, i, iterators =>
    let j : Int := i % (iterators.length : Int)
    match iterators[j.toNat]? with
    | none => []
    | some (perm_ind, it) =>
      match it.next with
      | none => cycle_loop fuel (j - 1) (iterators.eraseIdx j.toNat)
      | some (seed, it') =>
        (perm_ind, seed) :: cycle_loop fuel (j + 1) (iterators.set j.toNat (perm_ind, it'))

/-- `cycle_seeds` (main.py:181-208): the emitted (permuter index, seed)
stream, truncated to `fuel` loop iterations. -/
def cycle_seeds (fuel : Nat) (permuters : List PermuterSeeds) (force_seed : Option Int) :
    List (Nat × Int) :=
  cycle_loop fuel 0 (cycle_iterators permuters force_seed)

/-- A concrete options value: all toggles off, no forced seed. -/
def opts0 : Options := ⟨false, false, false, false, none⟩

/-- A concrete fresh aggregator context. -/
def ctx0 : EvalContext := ⟨opts0, 0, 0, []⟩

/-- A concrete fresh target: base score 10, empty dedup set. -/
def perm0 : Permuter := ⟨"t", 10, 10, [], 1000000000, fun _ => ""⟩

/-- A concrete evaluation oracle for closed worker-loop runs. -/
def ev0 : Nat → Int → EvalResult := fun _ _ => .error "" none

/-! ## C9: interrupt classification in `run` -/

/-- C9: on a user interrupt, `run` exits nonzero exactly when more than the
fixed 5-second grace window elapsed since the last recorded heartbeat
timestamp, printing the stuck-process diagnostic in that case, and exits 0
printing only the quiet message otherwise. -/
theorem c9_interrupt_exit (now last_time : ℚ) :
    ((run_interrupt now last_time).1 ≠ 0 ↔ now - last_time > 5)
    ∧ ((run_interrupt now last_time).1 = 0 ∨ (run_interrupt now last_time).1 = 1)
    ∧ ("Aborting stuck process." ∈ (run_interrupt now last_time).2 ↔ now - last_time > 5)
    ∧ ("Exiting." ∈ (run_interrupt now last_time).2 ↔ now - last_time ≤ 5) := by
  unfold run_interrupt
  split_ifs with h
  · exact ⟨by simp [h], by simp, by simp [h], by simp [not_le.mpr h]⟩
  · exact ⟨by simp [h], by simp, by simp [h], by simp [not_lt.mp h]⟩

/-- C9 witness: a 10-second-stale heartbeat exits with status 1. -/
theorem c9_interrupt_exit_witness :
    (run_interrupt 10 0).1 = 0 ∨ (run_interrupt 10 0).1 = 1 :=
  (c9_interrupt_exit 10 0).2.1

/-! ## C7: EvalError handling in `post_score` -/

/-- C7 (amended): an `EvalError` leaves the aggregator counters and the
target unchanged — in particular the error counter is NOT incremented — and
is printed exactly once: the failure header, the exception text, and (when
a seed is known) the reproduction instruction; then the process exits with
status 1 when `abort_exceptions` is set and otherwise the call returns
`False` so processing continues with no score recorded. -/
theorem c7_eval_error_behavior (ctx : EvalContext) (p : Permuter) (exc : String)
    (seed : Option (Int × Int)) :
    (post_score ctx p (.error exc seed)).context = ctx
    ∧ (post_score ctx p (.error exc seed)).permuter = p
    ∧ (post_score ctx p (.error exc seed)).effects =
        [.printed ("\n[" ++ p.unique_name ++ "] internal permuter failure."),
         .printed exc] ++
        (match seed with
         | none => []
         | some sd =>
           [.printed ("To reproduce the failure, rerun with: --seed " ++ seed_repro_str sd)])
    ∧ (post_score ctx p (.error exc seed)).outcome =
        (if ctx.options.abort_exceptions then .exited 1 else .ret false) := by
  unfold post_score
  split_ifs with h <;> exact ⟨rfl, rfl, rfl, rfl⟩

/-- C7 counterexample: a processed `EvalError` leaves the error counter at
its old value (0 here); it is not incremented to 1 as the claim states. -/
theorem c7_counterexample :
    (post_score ctx0 perm0 (.error "boom" none)).context.errors = 0
    ∧ ctx0.errors = 0
    ∧ ¬ ((post_score ctx0 perm0 (.error "boom" none)).context.errors = ctx0.errors + 1) := by
  refine ⟨rfl, rfl, by decide⟩

/-! ## C4: worker behaviour on an empty task channel -/

/-- C4: evaluating the worker loop at the failing input. A non-blocking
pull that finds the task channel empty makes `input_queue.get(block=False)`
raise `queue.Empty`, which the worker does not catch (only
KeyboardInterrupt is): the worker dies emitting nothing — it does not emit
`NeedMoreWork` and does not switch to blocking reads. The `NeedMoreWork`
branch is reachable only by dequeuing a literal `None` item, which the
coordinator never enqueues. -/
theorem c4_empty_poll_crashes :
    worker_loop ev0 [PollEvent.empty] false = ([], WorkerExit.crashed, [])
    ∧ (∀ (rest : List PollEvent) (ev : Nat → Int → EvalResult),
        worker_loop ev (PollEvent.empty :: rest) false = ([], WorkerExit.crashed, rest))
    ∧ worker_loop ev0 [PollEvent.item none] false
        = ([Feedback.need_more_work], WorkerExit.starved, []) := by
  exact ⟨rfl, fun rest ev => rfl, rfl⟩

/-! ## C10: seed reproduction string round trip -/

/-- C10: `post_score` prints the seed pair `(a, b)` as the component list
`[b]` when `a = 0` and `[a, b]` otherwise (joined with commas into
`seed_repro_str`), and the `--seed` parsing of `run_inner` is a left
inverse: it reconstructs `force_seed = a` and `force_rng_seed = b`, both on
the split components in general and on the exact printed strings. -/
theorem c10_seed_roundtrip (a b : Int) :
    seed_repro_str (a, b)
      = (if a ≠ 0 then toString a ++ "," ++ toString b else toString b)
    ∧ parse_seed_parts (seed_repro_parts (a, b)) = (a, b)
    ∧ parse_force_seed (seed_repro_str (5, 10)) = some (5, 10)
    ∧ parse_force_seed (seed_repro_str (0, 7)) = some (0, 7)
    ∧ parse_force_seed (seed_repro_str (-3, 4)) = some (-3, 4) := by
  refine ⟨rfl, ?_, by decide, by decide, by decide⟩
  unfold parse_seed_parts seed_repro_parts
  by_cases h : a = 0
  · subst h
    rfl
  · simp [h, List.headI, List.getLastI]

/-! ## C1 and C2: persistence, dedup and best-score bookkeeping -/

/-- Characterization of `post_score` on a `Scored` result with present
score, hash and source: the best score, the dedup set, the persistence
effect and the outcome. -/
lemma post_score_cand_core (ctx : EvalContext) (p : Permuter) (sv : Score) (sh : Hash)
    (src : String) (prof : List (String × Int)) :
    (post_score ctx p (.cand ⟨some sv, some sh, some src, prof⟩)).permuter.best_score
        = (if sv ≤ p.base_score ∧ sh ∉ p.hashes then min p.best_score sv else p.best_score)
    ∧ (post_score ctx p (.cand ⟨some sv, some sh, some src, prof⟩)).permuter.hashes
        = (if sv ≤ p.base_score ∧ sh ∉ p.hashes ∧ sv ≠ 0 then sh :: p.hashes else p.hashes)
    ∧ (post_score ctx p (.cand ⟨some sv, some sh, some src, prof⟩)).permuter.base_score
        = p.base_score
    ∧ (Effect.wrote_candidate sv
          ∈ (post_score ctx p (.cand ⟨some sv, some sh, some src, prof⟩)).effects
        ↔ (sv ≤ p.base_score ∧ sh ∉ p.hashes))
    ∧ (post_score ctx p (.cand ⟨some sv, some sh, some src, prof⟩)).outcome
        = .ret (decide (sv = 0)) := by
  unfold post_score write_candidate
  by_cases hq : sv ≤ p.base_score ∧ sh ∉ p.hashes
  · have h1 := hq.1
    have h2 := hq.2
    by_cases hz : sv = 0
    · subst hz
      by_cases hpd : ctx.options.print_diffs <;> simp [hq, h1, h2, hpd]
    · by_cases hpd : ctx.options.print_diffs <;> simp [hq, h1, h2, hz, hpd]
  · by_cases hpd : ctx.options.print_diffs <;> simp [hq, hpd] <;>
      rw [if_neg (fun hc => hq ⟨hc.1, hc.2.1⟩)]

/-- `post_score` never increases the best score, whatever the result. -/
lemma post_score_best_mono (ctx : EvalContext) (p : Permuter) (r : EvalResult) :
    (post_score ctx p r).permuter.best_score ≤ p.best_score := by
  unfold post_score write_candidate
  cases r with
  | error exc seed => split_ifs <;> simp
  | cand c =>
    obtain ⟨cs, ch, csrc, cprof⟩ := c
    by_cases hcr : ctx.options.print_diffs = true ∧ csrc = none
    · simp [hcr]
    · simp only [if_neg hcr]
      cases cs with
      | none => cases ch <;> simp
      | some sv =>
        cases ch with
        | none => simp
        | some sh =>
          by_cases hq : sv ≤ p.base_score ∧ sh ∉ p.hashes
          · simp only [if_pos hq]
            split_ifs <;> simp [min_le_left]
          · simp [if_neg hq]

/-- Whenever `post_score` changes the best score, the new value is at most
the base score. -/
lemma post_score_best_le_base (ctx : EvalContext) (p : Permuter) (r : EvalResult)
    (hne : (post_score ctx p r).permuter.best_score ≠ p.best_score) :
    (post_score ctx p r).permuter.best_score ≤ p.base_score := by
  revert hne
  unfold post_score write_candidate
  cases r with
  | error exc seed => split_ifs <;> simp
  | cand c =>
    obtain ⟨cs, ch, csrc, cprof⟩ := c
    by_cases hcr : ctx.options.print_diffs = true ∧ csrc = none
    · simp [hcr]
    · simp only [if_neg hcr]
      cases cs with
      | none => cases ch <;> simp
      | some sv =>
        cases ch with
        | none => simp
        | some sh =>
          by_cases hq : sv ≤ p.base_score ∧ sh ∉ p.hashes
          · simp only [if_pos hq]
            split_ifs <;>
              exact fun _ => le_trans (min_le_right p.best_score sv) hq.1
          · simp [if_neg hq]

/-- C1 (amended): for a `Scored` result with present score, hash and
source, `write_candidate` is invoked iff `score ≤ base_score` and the hash
is NOT already in the dedup set (with no zero-score exemption from the
dedup test); the hash is inserted exactly when the result qualifies and its
score is nonzero, so the dedup set stays duplicate-free and the hash of a
zero-score result is never recorded. -/
theorem c1_persistence (ctx : EvalContext) (p : Permuter) (sv : Score) (sh : Hash)
    (src : String) (prof : List (String × Int)) (hnd : p.hashes.Nodup) :
    (Effect.wrote_candidate sv
        ∈ (post_score ctx p (.cand ⟨some sv, some sh, some src, prof⟩)).effects
      ↔ (sv ≤ p.base_score ∧ sh ∉ p.hashes))
    ∧ ((post_score ctx p (.cand ⟨some sv, some sh, some src, prof⟩)).permuter.hashes
        = (if sv ≤ p.base_score ∧ sh ∉ p.hashes ∧ sv ≠ 0 then sh :: p.hashes else p.hashes))
    ∧ (post_score ctx p (.cand ⟨some sv, some sh, some src, prof⟩)).permuter.hashes.Nodup
    ∧ (sv = 0 →
        (post_score ctx p (.cand ⟨some sv, some sh, some src, prof⟩)).permuter.hashes
          = p.hashes) := by
  obtain ⟨hbest, hhashes, hbase, hmem, hout⟩ := post_score_cand_core ctx p sv sh src prof
  refine ⟨hmem, hhashes, ?_, ?_⟩
  · rw [hhashes]
    split_ifs with h
    · exact List.Nodup.cons h.2.1 hnd
    · exact hnd
  · intro hz
    rw [hhashes]
    simp [hz]

/-- C1 witness: a fresh qualifying result is persisted. -/
theorem c1_persistence_witness :
    Effect.wrote_candidate 5
        ∈ (post_score ctx0 perm0 (.cand ⟨some 5, some 7, some "s", []⟩)).effects
      ↔ ((5 : Score) ≤ perm0.base_score ∧ (7 : Hash) ∉ perm0.hashes) :=
  (c1_persistence ctx0 perm0 5 7 "s" [] (by simp [perm0])).1

/-- C1 counterexample: once hash 7 is recorded by a score-5 result, a
zero-score result with the same hash satisfies the claim's qualification
(score 0 ≤ base and score = 0) yet `write_candidate` is NOT invoked. -/
theorem c1_counterexample :
    ((0 : Score) ≤ (post_score ctx0 perm0
          (.cand ⟨some 5, some 7, some "s", []⟩)).permuter.base_score
      ∧ (((7 : Hash) ∉ (post_score ctx0 perm0
            (.cand ⟨some 5, some 7, some "s", []⟩)).permuter.hashes)
         ∨ (0 : Score) = 0))
    ∧ Effect.wrote_candidate 0 ∉
        (post_score
          (post_score ctx0 perm0 (.cand ⟨some 5, some 7, some "s", []⟩)).context
          (post_score ctx0 perm0 (.cand ⟨some 5, some 7, some "s", []⟩)).permuter
          (.cand ⟨some 0, some 7, some "s", []⟩)).effects := by
  decide

/-- All (score, hash) feedback with pairwise-distinct fresh hashes folds
the best score by `min` over the scores. -/
lemma post_scores_min_fold (ctx : EvalContext) (p : Permuter) (rs : List (Score × Hash))
    (hnd : (rs.map Prod.snd).Nodup)
    (hfresh : ∀ x ∈ rs, x.2 ∉ p.hashes)
    (hbb : p.best_score ≤ p.base_score) :
    (post_scores (scored_results rs) ctx p).2.best_score
      = (rs.map Prod.fst).foldl min p.best_score := by
  induction rs generalizing ctx p with
  | nil => rfl
  | cons x xs ih =>
    obtain ⟨s, h⟩ := x
    obtain ⟨hbest, hhashes, hbase, hmem, hout⟩ := post_score_cand_core ctx p s h "" []
    have hh0 : h ∉ p.hashes := hfresh (s, h) (List.mem_cons_self _ _)
    have hbest' : (post_score ctx p (.cand ⟨some s, some h, some "", []⟩)).permuter.best_score
        = min p.best_score s := by
      rw [hbest]
      split_ifs with hq
      · rfl
      · have hs : ¬ s ≤ p.base_score := fun hle => hq ⟨hle, hh0⟩
        have : p.best_score ≤ s := le_trans hbb (le_of_not_le hs)
        simp [min_eq_left this]
    simp only [scored_results, List.map_cons, post_scores, hout]
    have hxs : scored_results xs
        = xs.map (fun sh => .cand ⟨some sh.1, some sh.2, some "", []⟩) := rfl
    rw [← hxs]
    have hnd' : (xs.map Prod.snd).Nodup := (List.nodup_cons.mp (by simpa using hnd)).2
    have hmemh : h ∉ xs.map Prod.snd := (List.nodup_cons.mp (by simpa using hnd)).1
    have hfresh' : ∀ y ∈ xs,
        y.2 ∉ (post_score ctx p (.cand ⟨some s, some h, some "", []⟩)).permuter.hashes := by
      intro y hy
      rw [hhashes]
      have hyh : y.2 ≠ h := by
        intro he
        exact hmemh (he ▸ List.mem_map_of_mem Prod.snd hy)
      have hyp : y.2 ∉ p.hashes := hfresh y (List.mem_cons_of_mem _ hy)
      split_ifs with hc
      · simp [List.mem_cons, hyh, hyp]
      · exact hyp
    have hbb' : (post_score ctx p (.cand ⟨some s, some h, some "", []⟩)).permuter.best_score
        ≤ (post_score ctx p (.cand ⟨some s, some h, some "", []⟩)).permuter.base_score := by
      rw [hbest', hbase]
      exact le_trans (min_le_left _ _) hbb
    rw [ih (post_score ctx p (.cand ⟨some s, some h, some "", []⟩)).context
      (post_score ctx p (.cand ⟨some s, some h, some "", []⟩)).permuter hnd' hfresh' hbb',
      hbest', List.foldl_cons]

/-- C2 (amended): for a fresh target (best = base, all feedback hashes
present, pairwise distinct and unseen), processing `Scored` feedback with
scores s1..sk leaves `best_score = min(base_score, s1..sk)`; moreover, for
every single `post_score` step on any state and result, the best score
never increases, and whenever it changes it is ≤ the base score. -/
theorem c2_best_score_min (ctx : EvalContext) (p : Permuter) (rs : List (Score × Hash))
    (hnd : (rs.map Prod.snd).Nodup)
    (hfresh : ∀ x ∈ rs, x.2 ∉ p.hashes)
    (hinit : p.best_score = p.base_score) :
    ((post_scores (scored_results rs) ctx p).2.best_score
        = (rs.map Prod.fst).foldl min p.base_score)
    ∧ (∀ (c : EvalContext) (q : Permuter) (r : EvalResult),
        (post_score c q r).permuter.best_score ≤ q.best_score)
    ∧ (∀ (c : EvalContext) (q : Permuter) (r : EvalResult),
        (post_score c q r).permuter.best_score ≠ q.best_score →
          (post_score c q r).permuter.best_score ≤ q.base_score) := by
  refine ⟨?_, post_score_best_mono, post_score_best_le_base⟩
  have := post_scores_min_fold ctx p rs hnd hfresh (le_of_eq hinit)
  rw [this, hinit]

/-- C2 witness: two fresh distinct-hash results drive the best score to
the minimum of base and both scores. -/
theorem c2_best_score_min_witness :
    (post_scores (scored_results [(5, 7), (3, 8)]) ctx0 perm0).2.best_score
      = ([(5, 7), (3, 8)].map Prod.fst).foldl min perm0.base_score :=
  (c2_best_score_min ctx0 perm0 [(5, 7), (3, 8)] (by decide) (by decide) rfl).1

/-- C2 counterexample: scores 5 then 3 with the SAME hash leave the best
score at 5, not at min(10, 5, 3) = 3, because the duplicate hash makes the
second result fail the dedup test before the best score is updated. -/
theorem c2_counterexample :
    (post_scores (scored_results [(5, 7), (3, 7)]) ctx0 perm0).2.best_score = 5
    ∧ min (min perm0.base_score 5) 3 = 3
    ∧ (5 : Score) ≠ 3 := by
  decide

/-! ## C6: forced-seed replay -/

/-- Every seed the iterator can ever emit equals `v`. -/
def only_seed (v : Int) : SeedIter → Prop
  | .finite l => ∀ s ∈ l, s = v
  | .repeated s => s = v

lemma only_seed_next {v : Int} {it it' : SeedIter} {s : Int}
    (h : only_seed v it) (hn : it.next = some (s, it')) : s = v ∧ only_seed v it' := by
  cases it with
  | finite l =>
    cases l with
    | nil => simp [SeedIter.next] at hn
    | cons a rest =>
      simp only [SeedIter.next, Option.some.injEq, Prod.mk.injEq] at hn
      obtain ⟨rfl, rfl⟩ := hn
      exact ⟨h a (List.mem_cons_self _ _), fun x hx => h x (List.mem_cons_of_mem _ hx)⟩
  | repeated a =>
    simp only [SeedIter.next, Option.some.injEq, Prod.mk.injEq] at hn
    obtain ⟨rfl, rfl⟩ := hn
    exact ⟨h, h⟩

lemma cycle_loop_only_seed (v : Int) (fuel : Nat) :
    ∀ (i : Int) (iters : List (Nat × SeedIter)),
      (∀ e ∈ iters, only_seed v e.2) →
      ∀ x ∈ cycle_loop fuel i iters, x.2 = v := by
  induction fuel with
  | zero => intro i iters _ x hx; simp [cycle_loop] at hx
  | succ n ih =>
    intro i iters hall x hx
    rw [cycle_loop] at hx
    set j : Int := i % (iters.length : Int) with hj
    rcases hit : iters[j.toNat]? with _ | ⟨pi, it⟩
    · simp [hit] at hx
    · have hmem : (pi, it) ∈ iters := List.getElem?_mem hit
      rcases hnx : it.next with _ | ⟨s, it'⟩
      · simp only [hit, hnx] at hx
        refine ih _ _ ?_ x hx
        intro e he
        exact hall e (List.mem_of_mem_eraseIdx he)
      · simp only [hit, hnx, List.mem_cons] at hx
        rcases hx with rfl | hx
        · exact (only_seed_next (hall _ hmem) hnx).1
        · refine ih _ _ ?_ x hx
          intro e he
          rcases List.mem_or_eq_of_mem_set he with he' | rfl
          · exact hall e he'
          · exact (only_seed_next (hall _ hmem) hnx).2

lemma cycle_loop_nil (fuel : Nat) (i : Int) : cycle_loop fuel i [] = [] := by
  cases fuel <;> rfl

lemma cycle_loop_repeated (v : Int) (pi : Nat) (fuel : Nat) :
    ∀ i : Int, cycle_loop fuel i [(pi, SeedIter.repeated v)] = List.replicate fuel (pi, v) := by
  induction fuel with
  | zero => intro i; rfl
  | succ n ih =>
    intro i
    rw [cycle_loop, List.replicate_succ]
    simp only [List.length_singleton, Nat.cast_one, Int.emod_one, Int.toNat_zero,
      List.getElem?_cons_zero, SeedIter.next, List.set_cons_zero]
    exact congrArg _ (ih (0 + 1))

/-- C6 (amended): the forced-seed string "5,10" parses to
`force_seed = 5` and `force_rng_seed = 10` (format `seed,rngSeed`, not
`rngSeed,seed`); consequently every pair the cycle generator emits carries
seed 5 — in particular a single randomized target emits (0, 5) on every
turn, and a single deterministic target emits (0, 5) exactly once — with
the rng component 10 handed to the permuters. -/
theorem c6_forced_seed_replay :
    parse_force_seed "5,10" = some (5, 10)
    ∧ (∀ (ps : List PermuterSeeds) (fuel : Nat) (i : Int),
        ∀ x ∈ cycle_loop fuel i (cycle_iterators ps (some 5)), x.2 = 5)
    ∧ (∀ (l : List Int) (fuel : Nat),
        cycle_seeds fuel [⟨true, l⟩] (some 5) = List.replicate fuel (0, 5))
    ∧ (∀ (l : List Int) (fuel : Nat), 2 ≤ fuel →
        cycle_seeds fuel [⟨false, l⟩] (some 5) = [(0, 5)]) := by
  refine ⟨by decide, ?_, ?_, ?_⟩
  · intro ps fuel i x hx
    refine cycle_loop_only_seed 5 fuel i _ ?_ x hx
    intro e he
    simp only [cycle_iterators, List.mem_map] at he
    obtain ⟨pe, _, rfl⟩ := he
    by_cases hr : pe.2.is_random <;> simp [py_truthy, hr, only_seed]
  · intro l fuel
    have : cycle_iterators [⟨true, l⟩] (some 5) = [(0, SeedIter.repeated 5)] := rfl
    rw [cycle_seeds, this, cycle_loop_repeated]
  · intro l fuel hfuel
    obtain ⟨k, rfl⟩ : ∃ k, fuel = k + 2 := ⟨fuel - 2, by omega⟩
    have hit : cycle_iterators [⟨false, l⟩] (some 5) = [(0, SeedIter.finite [5])] := rfl
    rw [cycle_seeds, hit, cycle_loop]
    simp only [List.length_singleton, Nat.cast_one, Int.emod_one, Int.toNat_zero,
      List.getElem?_cons_zero, SeedIter.next, List.set_cons_zero]
    rw [cycle_loop]
    simp only [List.length_singleton, Nat.cast_one, Int.emod_one, Int.toNat_zero,
      List.getElem?_cons_zero, SeedIter.next]
    simp [cycle_loop_nil]

/-- C6 witness: the deterministic singleton instance at fuel 2. -/
theorem c6_forced_seed_replay_witness :
    cycle_seeds 2 [⟨false, [1, 2, 3]⟩] (some 5) = [(0, 5)] :=
  c6_forced_seed_replay.2.2.2 [1, 2, 3] 2 (le_refl 2)

/-- C6 counterexample: parsing "5,10" yields `force_seed = 5` and
`force_rng_seed = 10`, and the first pair a randomized target emits under
that forced seed is (0, 5): the emitted seed is 5, not 10 as the claim
(reading the format as `rngSeed,seed`) states. -/
theorem c6_counterexample :
    parse_force_seed "5,10" = some (5, 10)
    ∧ cycle_seeds 1 [⟨true, []⟩] ((parse_force_seed "5,10").map Prod.fst) = [(0, 5)]
    ∧ ((5 : Int) ≠ 10) := by
  refine ⟨by decide, by decide, by decide⟩

/-! ## C5: rotation after dropping an exhausted iterator -/

/-- One loop iteration at rotation position `j` whose iterator is
exhausted: the iterator is deleted and the loop continues with `i = j - 1`
(the `i -= 1` of main.py:205). -/
lemma cycle_loop_drop_step (fuel : Nat) (iters : List (Nat × SeedIter)) (j : Nat)
    (pi_e : Nat) (it_e : SeedIter) (hj : iters[j]? = some (pi_e, it_e))
    (hex : it_e.next = none) :
    cycle_loop (fuel + 1) (j : Int) iters
      = cycle_loop fuel ((j : Int) - 1) (iters.eraseIdx j) := by
  have hjlt : j < iters.length := by
    rcases List.getElem?_eq_some.mp hj with ⟨h, _⟩
    exact h
  have hmod : (j : Int) % (iters.length : Int) = (j : Int) :=
    Int.emod_eq_of_lt (Int.natCast_nonneg j) (by exact_mod_cast hjlt)
  rw [cycle_loop]
  simp only [hmod, Int.toNat_natCast, hj, hex]

/-- C5 (amended): when the iterator at rotation position `j` is exhausted
it is removed and rotation continues from the PREVIOUS rotation position
(`i -= 1` after the deletion): the next pair is pulled from the iterator
immediately before the removed one in rotation order (wrapping to the last
when the removed one was first), not from the immediate follower. -/
theorem c5_rotation_after_drop (fuel : Nat) (iters : List (Nat × SeedIter)) (j : Nat)
    (pi_e : Nat) (it_e : SeedIter) (pe : Nat × SeedIter) (s : Int) (it' : SeedIter)
    (hj : iters[j]? = some (pi_e, it_e)) (hex : it_e.next = none)
    (hlen : 1 < iters.length)
    (hpe : iters[(j + iters.length - 1) % iters.length]? = some pe)
    (hps : pe.2.next = some (s, it')) :
    cycle_loop (fuel + 1) (j : Int) iters
      = cycle_loop fuel ((j : Int) - 1) (iters.eraseIdx j)
    ∧ (cycle_loop (fuel + 2) (j : Int) iters).head? = some (pe.1, s) := by
  have hjlt : j < iters.length := by
    rcases List.getElem?_eq_some.mp hj with ⟨h, _⟩
    exact h
  have hlen' : (iters.eraseIdx j).length = iters.length - 1 := by
    rw [List.length_eraseIdx]
    simp [hjlt]
  refine ⟨cycle_loop_drop_step fuel iters j pi_e it_e hj hex, ?_⟩
  rw [show fuel + 2 = (fuel + 1) + 1 from rfl,
    cycle_loop_drop_step (fuel + 1) iters j pi_e it_e hj hex]
  -- the second iteration pulls from the predecessor
  obtain ⟨ppi, pit⟩ := pe
  have hget : (iters.eraseIdx j)[(((j : Int) - 1) % ((iters.eraseIdx j).length : Int)).toNat]?
      = some (ppi, pit) := by
    cases j with
    | zero =>
      have hm : (((0 : Nat) : Int) - 1) % ((iters.eraseIdx 0).length : Int)
          = ((iters.eraseIdx 0).length : Int) - 1 := by
        have h1 : (1 : Int) ≤ ((iters.eraseIdx 0).length : Int) := by
          rw [hlen']
          omega
        have : (((0 : Nat) : Int) - 1)
            = (((iters.eraseIdx 0).length : Int) - 1)
              + ((iters.eraseIdx 0).length : Int) * (-1) := by
          push_cast
          ring
        rw [this, Int.add_mul_emod_self_left]
        exact Int.emod_eq_of_lt (by omega) (by omega)
      rw [hm, hlen']
      have htn : (((iters.length - 1 : Nat) : Int) - 1).toNat = iters.length - 2 := by
        omega
      rw [htn, List.getElem?_eraseIdx_of_ge iters 0 (iters.length - 2) (Nat.zero_le _)]
      have : iters.length - 2 + 1 = (0 + iters.length - 1) % iters.length := by
        rw [Nat.mod_eq_of_lt (by omega)]
        omega
      rw [this]
      exact hpe
    | succ sj =>
      have hsj : sj < (iters.eraseIdx (sj + 1)).length := by
        rw [hlen']
        omega
      have hm : (((sj + 1 : Nat) : Int) - 1) % ((iters.eraseIdx (sj + 1)).length : Int)
          = (sj : Nat) := by
        have : (((sj + 1 : Nat) : Int) - 1) = ((sj : Nat) : Int) := by
          push_cast
          ring
        rw [this]
        exact Int.emod_eq_of_lt (Int.natCast_nonneg sj) (by exact_mod_cast hsj)
      rw [hm, Int.toNat_natCast,
        List.getElem?_eraseIdx_of_lt iters (sj + 1) sj (Nat.lt_succ_self sj)]
      have : sj = (sj + 1 + iters.length - 1) % iters.length := by
        rw [show sj + 1 + iters.length - 1 = sj + iters.length by omega,
          Nat.add_mod_right, Nat.mod_eq_of_lt (by omega)]
      rw [this]
      exact hpe
  rw [cycle_loop]
  simp only [hget, hps, List.head?_cons]

/-- C5 witness: in `[A, B, C]` with `A` exhausted at position 0, the next
emitted pair comes from `C` (the wrap-around predecessor), by the amended
rule. -/
theorem c5_rotation_after_drop_witness :
    (cycle_loop 2 ((0 : Nat) : Int)
        [(0, SeedIter.finite []), (1, SeedIter.finite [7]), (2, SeedIter.finite [9])]).head?
      = some (2, 9) :=
  (c5_rotation_after_drop 0
    [(0, SeedIter.finite []), (1, SeedIter.finite [7]), (2, SeedIter.finite [9])]
    0 0 (SeedIter.finite []) (2, SeedIter.finite [9]) 9 (SeedIter.finite [])
    rfl rfl (by decide) rfl rfl).2

/-- C5 counterexample: targets with seed lists [10], [21,22], [31,32].
After target 0 is exhausted (following the third emission), the claim says
the next emitted pair comes from the immediate follower, target 1, i.e.
(1, 22); the code emits (2, 32). -/
theorem c5_counterexample :
    (cycle_seeds 10 [⟨false, [10]⟩, ⟨false, [21, 22]⟩, ⟨false, [31, 32]⟩] none)[3]?
        = some (2, 32)
    ∧ ((2, 32) : Nat × Int) ≠ (1, 22) := by
  refine ⟨by decide, by decide⟩

/-! ## C8: fairness and termination over finite seed spaces -/

/-- The seeds still to be emitted by one iterator (`repeated` is infinite
and outside the finite enumeration, contributing none). -/
def SeedIter.toList : SeedIter → List Int
  | .finite l => l
  | .repeated _ => []

/-- All (target, seed) pairs remaining across the rotation list. -/
def iters_seeds (iters : List (Nat × SeedIter)) : List (Nat × Int) :=
  (iters.map (fun e => e.2.toList.map (fun s => (e.1, s)))).flatten

/-- Fuel sufficient to drive the rotation to completion: one loop
iteration per yielded pair plus one per iterator removal. -/
def iters_fuel (iters : List (Nat × SeedIter)) : Nat :=
  iters.length + (iters_seeds iters).length

/-- Every iterator in rotation is a finite enumeration. -/
def all_finite (iters : List (Nat × SeedIter)) : Prop :=
  ∀ e ∈ iters, ∃ l, e.2 = SeedIter.finite l

lemma iters_seeds_append (A B : List (Nat × SeedIter)) :
    iters_seeds (A ++ B) = iters_seeds A ++ iters_seeds B := by
  simp [iters_seeds]

lemma iters_seeds_cons (e : Nat × SeedIter) (B : List (Nat × SeedIter)) :
    iters_seeds (e :: B) = e.2.toList.map (fun s => (e.1, s)) ++ iters_seeds B := by
  simp [iters_seeds]

/-- With enough fuel, the rotation loop emits exactly the remaining pairs
of its finite iterators, in some order. -/
lemma cycle_loop_perm (fuel : Nat) :
    ∀ (iters : List (Nat × SeedIter)) (i : Int),
      all_finite iters → iters_fuel iters ≤ fuel →
      (cycle_loop fuel i iters).Perm (iters_seeds iters) := by
  induction fuel with
  | zero =>
    intro iters i _ hfuel
    have hnil : iters = [] := by
      unfold iters_fuel at hfuel
      exact List.length_eq_zero.mp (by omega)
    subst hnil
    simp [cycle_loop, iters_seeds]
  | succ n ih =>
    intro iters i hfin hfuel
    by_cases hemp : iters.length = 0
    · rw [List.length_eq_zero.mp hemp]
      simp [cycle_loop_nil, iters_seeds]
    have hlen0 : 0 < iters.length := Nat.pos_of_ne_zero hemp
    have hj0 : 0 ≤ i % (iters.length : Int) :=
      Int.emod_nonneg i (by exact_mod_cast hemp)
    have hjlt : i % (iters.length : Int) < (iters.length : Int) :=
      Int.emod_lt_of_pos i (by exact_mod_cast hlen0)
    have hjn : (i % (iters.length : Int)).toNat < iters.length := by omega
    rw [cycle_loop]
    rcases hE : iters[(i % (iters.length : Int)).toNat]? with _ | ⟨pi, it⟩
    · rw [List.getElem?_eq_getElem hjn] at hE
      exact absurd hE (by simp)
    obtain ⟨hjn', hev⟩ := List.getElem?_eq_some.mp hE
    have hdecomp : iters
        = iters.take (i % (iters.length : Int)).toNat
          ++ (pi, it) :: iters.drop ((i % (iters.length : Int)).toNat + 1) := by
      conv_lhs => rw [← List.take_append_drop (i % (iters.length : Int)).toNat iters]
      rw [List.drop_eq_getElem_cons hjn, hev]
    obtain ⟨l, hl⟩ := hfin (pi, it) (List.getElem?_mem hE)
    simp only at hl
    subst hl
    cases l with
    | nil =>
      simp only [hE, SeedIter.next]
      have hseeds_erase :
          iters_seeds (iters.eraseIdx (i % (iters.length : Int)).toNat)
            = iters_seeds iters := by
        rw [List.eraseIdx_eq_take_drop_succ]
        conv_rhs => rw [hdecomp]
        rw [iters_seeds_append, iters_seeds_append, iters_seeds_cons]
        simp [SeedIter.toList]
      have hfin' : all_finite (iters.eraseIdx (i % (iters.length : Int)).toNat) :=
        fun e he => hfin e (List.mem_of_mem_eraseIdx he)
      have hfuel' : iters_fuel (iters.eraseIdx (i % (iters.length : Int)).toNat) ≤ n := by
        unfold iters_fuel at hfuel ⊢
        rw [hseeds_erase, List.length_eraseIdx]
        simp only [hjn, if_pos]
        omega
      have := ih _ (i % (iters.length : Int) - 1) hfin' hfuel'
      rw [hseeds_erase] at this
      exact this
    | cons s rest =>
      simp only [hE, SeedIter.next]
      have hset : iters.set (i % (iters.length : Int)).toNat (pi, SeedIter.finite rest)
          = iters.take (i % (iters.length : Int)).toNat
            ++ (pi, SeedIter.finite rest)
              :: iters.drop ((i % (iters.length : Int)).toNat + 1) :=
        List.set_eq_take_cons_drop _ hjn
      have hS : iters_seeds (iters.set (i % (iters.length : Int)).toNat (pi, SeedIter.finite rest))
          = iters_seeds (iters.take (i % (iters.length : Int)).toNat)
            ++ rest.map (fun s => (pi, s))
            ++ iters_seeds (iters.drop ((i % (iters.length : Int)).toNat + 1)) := by
        rw [hset, iters_seeds_append, iters_seeds_cons]
        simp [SeedIter.toList, List.append_assoc]
      have hI : iters_seeds iters
          = iters_seeds (iters.take (i % (iters.length : Int)).toNat)
            ++ ((pi, s) :: rest.map (fun t => (pi, t)))
            ++ iters_seeds (iters.drop ((i % (iters.length : Int)).toNat + 1)) := by
        conv_lhs => rw [hdecomp]
        rw [iters_seeds_append, iters_seeds_cons]
        simp [SeedIter.toList, List.append_assoc]
      have hfin' : all_finite (iters.set (i % (iters.length : Int)).toNat (pi, SeedIter.finite rest)) := by
        intro e he
        rcases List.mem_or_eq_of_mem_set he with he' | rfl
        · exact hfin e he'
        · exact ⟨rest, rfl⟩
      have hfuel' : iters_fuel (iters.set (i % (iters.length : Int)).toNat (pi, SeedIter.finite rest)) ≤ n := by
        unfold iters_fuel at hfuel ⊢
        have h1 := congrArg List.length hS
        have h2 := congrArg List.length hI
        simp only [List.length_append, List.length_cons, List.length_map] at h1 h2
        rw [List.length_set]
        omega
      have hper := ih _ (i % (iters.length : Int) + 1) hfin' hfuel'
      rw [hS] at hper
      rw [hI]
      have step1 : ((pi, s) :: cycle_loop n (i % (iters.length : Int) + 1)
            (iters.set (i % (iters.length : Int)).toNat (pi, SeedIter.finite rest))).Perm
          ((pi, s) :: (iters_seeds (iters.take (i % (iters.length : Int)).toNat)
            ++ rest.map (fun s => (pi, s))
            ++ iters_seeds (iters.drop ((i % (iters.length : Int)).toNat + 1)))) :=
        hper.cons _
      refine step1.trans ?_
      rw [List.append_assoc, ← List.cons_append]
      rw [List.append_assoc]
      exact List.perm_middle.symm

/-- Strict round-robin interleaving following the SPEC's words (after an
exhausted iterator is dropped, rotation continues from the same position).
This definition follows the spec, not the source; it exists only to compare
the two sequences. -/
def round_robin_ref : Nat → Nat → List (Nat × SeedIter) → List (Nat × Int)
  | 0, _, _ => []
  | fuel + 1, i, iters =>
    let j := i % iters.length
    match iters[j]? with
    | none => []
    | some (perm_ind, it) =>
      match it.next with
      | none => round_robin_ref fuel j (iters.eraseIdx j)
      | some (seed, it') =>
        (perm_ind, seed) :: round_robin_ref fuel (j + 1) (iters.set j (perm_ind, it'))

/-- C8 (amended): for targets with finite seed spaces and no forced seed,
the cycle generator emits each target's seeds exactly once each (the output
is a permutation of the tagged union of the seed lists) and stops after
exactly s1+...+sn items, for every fuel bound large enough; the
interleaving, however, follows the source's rotation (which steps back one
position after a removal), not strict round-robin. -/
theorem c8_fairness (permuters : List PermuterSeeds) (fuel : Nat)
    (hfuel : iters_fuel (cycle_iterators permuters none) ≤ fuel) :
    (cycle_seeds fuel permuters none).Perm (iters_seeds (cycle_iterators permuters none))
    ∧ iters_seeds (cycle_iterators permuters none)
        = (permuters.enum.map (fun pe => pe.2.all_seeds.map (fun s => (pe.1, s)))).flatten
    ∧ (cycle_seeds fuel permuters none).length
        = (permuters.map (fun p => p.all_seeds.length)).sum := by
  have hfin : all_finite (cycle_iterators permuters none) := by
    intro e he
    simp only [cycle_iterators, List.mem_map] at he
    obtain ⟨pe, _, rfl⟩ := he
    exact ⟨pe.2.all_seeds, rfl⟩
  have hperm := cycle_loop_perm fuel _ 0 hfin hfuel
  have heq : iters_seeds (cycle_iterators permuters none)
      = (permuters.enum.map (fun pe => pe.2.all_seeds.map (fun s => (pe.1, s)))).flatten := by
    simp [iters_seeds, cycle_iterators, py_truthy, SeedIter.toList, List.map_map]
    rfl
  refine ⟨hperm, heq, ?_⟩
  have hlen := hperm.length_eq
  rw [heq] at hlen
  unfold cycle_seeds
  rw [hlen, List.length_flatten, List.map_map]
  conv_rhs => rw [← List.enum_map_snd permuters, List.map_map]
  congr 1
  simp [Function.comp, List.length_map]

/-- C8 witness: the three-target fixture with seed-space sizes 1, 2, 2
emits exactly 1 + 2 + 2 = 5 pairs. -/
theorem c8_fairness_witness :
    (cycle_seeds 10 [⟨false, [10]⟩, ⟨false, [21, 22]⟩, ⟨false, [31, 32]⟩] none).length
      = (([⟨false, [10]⟩, ⟨false, [21, 22]⟩, ⟨false, [31, 32]⟩] : List PermuterSeeds).map
          (fun p => p.all_seeds.length)).sum :=
  (c8_fairness [⟨false, [10]⟩, ⟨false, [21, 22]⟩, ⟨false, [31, 32]⟩] 10 (by decide)).2.2

/-- C8 counterexample: with seed-space sizes 1, 2, 2 the source emits
[(0,10),(1,21),(2,31),(2,32),(1,22)], while strict round-robin (the spec's
reading) yields [(0,10),(1,21),(2,31),(1,22),(2,32)]: after target 0 drops
out, the source visits target 2 before target 1. -/
theorem c8_counterexample :
    cycle_seeds 10 [⟨false, [10]⟩, ⟨false, [21, 22]⟩, ⟨false, [31, 32]⟩] none
        = [(0, 10), (1, 21), (2, 31), (2, 32), (1, 22)]
    ∧ round_robin_ref 10 0
          (cycle_iterators [⟨false, [10]⟩, ⟨false, [21, 22]⟩, ⟨false, [31, 32]⟩] none)
        = [(0, 10), (1, 21), (2, 31), (1, 22), (2, 32)]
    ∧ ([(0, 10), (1, 21), (2, 31), (2, 32), (1, 22)] : List (Nat × Int))
        ≠ [(0, 10), (1, 21), (2, 31), (1, 22), (2, 32)] := by
  refine ⟨by decide, by decide, by decide⟩


/-! ## C3: shutdown accounting -/

lemma worker_loop_finished (ev : Nat → Int → EvalResult) (evts : List PollEvent) :
    ∀ b : Bool,
      ((worker_loop ev evts b).1.count Feedback.finished ≤ 1)
      ∧ ((worker_loop ev evts b).2.1 = WorkerExit.finished
          ↔ (worker_loop ev evts b).1.count Feedback.finished = 1)
      ∧ ((worker_loop ev evts b).2.1 = WorkerExit.finished →
          ∃ pre, evts = pre ++ PollEvent.item (some Task.fin) :: (worker_loop ev evts b).2.2) := by
  induction evts with
  | nil =>
    intro b
    have hred : worker_loop ev [] b = ([], WorkerExit.starved, []) := rfl
    rw [hred]
    simp
  | cons e rest ih =>
    intro b
    cases e with
    | empty =>
      cases b with
      | true =>
        have hred : worker_loop ev (PollEvent.empty :: rest) true
            = worker_loop ev rest true := rfl
        obtain ⟨hle, hiff, hpre⟩ := ih true
        rw [hred]
        refine ⟨hle, hiff, ?_⟩
        intro hfin
        obtain ⟨pre, hp⟩ := hpre hfin
        exact ⟨PollEvent.empty :: pre, by rw [List.cons_append, ← hp]⟩
      | false =>
        have hred : worker_loop ev (PollEvent.empty :: rest) false
            = ([], WorkerExit.crashed, rest) := rfl
        rw [hred]
        simp
    | item t =>
      cases t with
      | none =>
        have hred : worker_loop ev (PollEvent.item none :: rest) b
            = (Feedback.need_more_work :: (worker_loop ev rest true).1,
               (worker_loop ev rest true).2.1, (worker_loop ev rest true).2.2) := rfl
        obtain ⟨hle, hiff, hpre⟩ := ih true
        rw [hred]
        have hcnt : (Feedback.need_more_work :: (worker_loop ev rest true).1).count
            Feedback.finished = (worker_loop ev rest true).1.count Feedback.finished :=
          List.count_cons_of_ne (by simp) _
        refine ⟨by rw [hcnt]; exact hle, by rw [hcnt]; exact hiff, ?_⟩
        intro hfin
        obtain ⟨pre, hp⟩ := hpre hfin
        exact ⟨PollEvent.item none :: pre, by rw [List.cons_append, ← hp]⟩
      | some tk =>
        cases tk with
        | fin =>
          have hred : worker_loop ev (PollEvent.item (some Task.fin) :: rest) b
              = ([Feedback.finished], WorkerExit.finished, rest) := rfl
          rw [hred]
          refine ⟨by simp, by simp, ?_⟩
          intro _
          exact ⟨[], by simp⟩
        | work pi sd =>
          have hred : worker_loop ev (PollEvent.item (some (Task.work pi sd)) :: rest) b
              = (Feedback.result pi (ev pi sd) :: (worker_loop ev rest false).1,
                 (worker_loop ev rest false).2.1, (worker_loop ev rest false).2.2) := rfl
          obtain ⟨hle, hiff, hpre⟩ := ih false
          rw [hred]
          have hcnt : (Feedback.result pi (ev pi sd) :: (worker_loop ev rest false).1).count
              Feedback.finished = (worker_loop ev rest false).1.count Feedback.finished :=
            List.count_cons_of_ne (by simp) _
          refine ⟨by rw [hcnt]; exact hle, by rw [hcnt]; exact hiff, ?_⟩
          intro hfin
          obtain ⟨pre, hp⟩ := hpre hfin
          exact ⟨PollEvent.item (some (Task.work pi sd)) :: pre, by rw [List.cons_append, ← hp]⟩

lemma drain_loop_zero (fbs : List Feedback) (ctx : EvalContext) (ps : List Permuter)
    (fz : Bool) : drain_loop fbs ctx ps 0 fz = ⟨ctx, ps, 0, fz, .terminated, fbs⟩ := by
  cases fbs with
  | nil => rfl
  | cons f rest => cases f <;> rfl

lemma drain_loop_result_eq (rest : List Feedback) (ctx : EvalContext) (ps : List Permuter)
    (a : Nat) (fz : Bool) (idx : Nat) (res : EvalResult) :
    drain_loop (Feedback.result idx res :: rest) ctx ps (a + 1) fz
      = if ctx.options.stop_on_zero ∧ fz then drain_loop rest ctx ps (a + 1) fz
        else
          match ps[idx]? with
          | none => ⟨ctx, ps, a + 1, fz, .crashed, rest⟩
          | some p =>
            match (post_score ctx p res).outcome with
            | .ret b =>
              drain_loop rest (post_score ctx p res).context
                (ps.set idx (post_score ctx p res).permuter) (a + 1) (fz || b)
            | .exited k =>
              ⟨(post_score ctx p res).context, ps.set idx (post_score ctx p res).permuter,
               a + 1, fz, .exited k, rest⟩
            | .crashed =>
              ⟨(post_score ctx p res).context, ps.set idx (post_score ctx p res).permuter,
               a + 1, fz, .crashed, rest⟩ := rfl

lemma drain_loop_accounting (fbs : List Feedback) :
    ∀ (ctx : EvalContext) (ps : List Permuter) (active : Nat) (fz : Bool),
      ∃ pre, fbs = pre ++ (drain_loop fbs ctx ps active fz).unread
        ∧ pre.count Feedback.finished ≤ active
        ∧ (drain_loop fbs ctx ps active fz).active_workers
            = active - pre.count Feedback.finished
        ∧ ((drain_loop fbs ctx ps active fz).outcome = DrainExit.terminated
            ↔ pre.count Feedback.finished = active) := by
  induction fbs with
  | nil =>
    intro ctx ps active fz
    cases active with
    | zero => exact ⟨[], by simp [drain_loop_zero]⟩
    | succ a =>
      have hred : drain_loop [] ctx ps (a + 1) fz
          = ⟨ctx, ps, a + 1, fz, .starved, []⟩ := rfl
      exact ⟨[], by simp [hred]⟩
  | cons f rest ih =>
    intro ctx ps active fz
    cases active with
    | zero => exact ⟨[], by simp [drain_loop_zero]⟩
    | succ a =>
      cases f with
      | finished =>
        have hred : drain_loop (Feedback.finished :: rest) ctx ps (a + 1) fz
            = drain_loop rest ctx ps a fz := rfl
        obtain ⟨pre, h1, h2, h3, h4⟩ := ih ctx ps a fz
        rw [hred]
        refine ⟨Feedback.finished :: pre, by simpa using h1, ?_, ?_, ?_⟩
        · rw [List.count_cons_self]
          omega
        · rw [List.count_cons_self, h3]
          omega
        · rw [List.count_cons_self, h4]
          omega
      | need_more_work =>
        have hred : drain_loop (Feedback.need_more_work :: rest) ctx ps (a + 1) fz
            = drain_loop rest ctx ps (a + 1) fz := rfl
        obtain ⟨pre, h1, h2, h3, h4⟩ := ih ctx ps (a + 1) fz
        rw [hred]
        have hcnt : (Feedback.need_more_work :: pre).count Feedback.finished
            = pre.count Feedback.finished := List.count_cons_of_ne (by simp) _
        exact ⟨Feedback.need_more_work :: pre, by simpa using h1,
          by rw [hcnt]; exact h2, by rw [hcnt]; exact h3, by rw [hcnt]; exact h4⟩
      | result idx res =>
        rw [drain_loop_result_eq]
        by_cases hsz : ctx.options.stop_on_zero = true ∧ fz = true
        · rw [if_pos hsz]
          obtain ⟨pre, h1, h2, h3, h4⟩ := ih ctx ps (a + 1) fz
          have hcnt : (Feedback.result idx res :: pre).count Feedback.finished
              = pre.count Feedback.finished := List.count_cons_of_ne (by simp) _
          exact ⟨Feedback.result idx res :: pre, by simpa using h1,
            by rw [hcnt]; exact h2, by rw [hcnt]; exact h3, by rw [hcnt]; exact h4⟩
        · rw [if_neg hsz]
          rcases hp : ps[idx]? with _ | p
          · simp only [hp]
            exact ⟨[Feedback.result idx res], by simp, by simp, by simp, by simp⟩
          · simp only [hp]
            rcases ho : (post_score ctx p res).outcome with b | k | _
            · simp only [ho]
              obtain ⟨pre, h1, h2, h3, h4⟩ := ih (post_score ctx p res).context
                (ps.set idx (post_score ctx p res).permuter) (a + 1) (fz || b)
              have hcnt : (Feedback.result idx res :: pre).count Feedback.finished
                  = pre.count Feedback.finished := List.count_cons_of_ne (by simp) _
              exact ⟨Feedback.result idx res :: pre, by simpa using h1,
                by rw [hcnt]; exact h2, by rw [hcnt]; exact h3, by rw [hcnt]; exact h4⟩
            · simp only [ho]
              exact ⟨[Feedback.result idx res], by simp, by simp, by simp, by simp⟩
            · simp only [ho]
              exact ⟨[Feedback.result idx res], by simp, by simp, by simp, by simp⟩


/-- C3: (a) the "Signal workers to stop" step enqueues exactly `W`
`Finished` sentinels when `W` workers are still active; (b) a worker
forwards exactly one `Finished` acknowledgement exactly when it received a
`Finished` sentinel, and consumes nothing past that sentinel; (c) the
drain loop removes exactly one active-worker credit per `Finished`
acknowledgement read, and reaches the terminated state exactly when the
consumed feedback prefix contains exactly as many acknowledgements as
there were active workers. -/
theorem c3_shutdown :
    (∀ W : Nat, (signal_finished W).length = W
      ∧ (signal_finished W).count Task.fin = W)
    ∧ (∀ (ev : Nat → Int → EvalResult) (evts : List PollEvent) (b : Bool),
        ((worker_loop ev evts b).1.count Feedback.finished ≤ 1)
        ∧ ((worker_loop ev evts b).2.1 = WorkerExit.finished
            ↔ (worker_loop ev evts b).1.count Feedback.finished = 1)
        ∧ ((worker_loop ev evts b).2.1 = WorkerExit.finished →
            ∃ pre, evts = pre ++ PollEvent.item (some Task.fin) :: (worker_loop ev evts b).2.2))
    ∧ (∀ (fbs : List Feedback) (ctx : EvalContext) (ps : List Permuter)
        (active : Nat) (fz : Bool),
        ∃ pre, fbs = pre ++ (drain_loop fbs ctx ps active fz).unread
          ∧ pre.count Feedback.finished ≤ active
          ∧ (drain_loop fbs ctx ps active fz).active_workers
              = active - pre.count Feedback.finished
          ∧ ((drain_loop fbs ctx ps active fz).outcome = DrainExit.terminated
              ↔ pre.count Feedback.finished = active)) := by
  refine ⟨?_, fun ev evts b => worker_loop_finished ev evts b,
    fun fbs ctx ps active fz => drain_loop_accounting fbs ctx ps active fz⟩
  intro W
  exact ⟨by simp [signal_finished], by simp [signal_finished]⟩

/-- C3 witness: a worker given exactly the sentinel forwards exactly one
acknowledgement. -/
theorem c3_shutdown_witness :
    (worker_loop ev0 [PollEvent.item (some Task.fin)] false).1.count Feedback.finished = 1 :=
  (c3_shutdown.2.1 ev0 [PollEvent.item (some Task.fin)] false).2.1.mp rfl

end DP
